import Mathlib

/-!
Verification of the page-collection / undo-history core of the
`pdf-optimizer` application (source: `src/App.tsx`,
`src/services/geminiService.ts`, `src/types.ts`).

The TypeScript code is shallowly embedded: the `PageData` record and the
`History` state are translated field by field, the React handlers become
pure state-transition functions, and the external collaborators
(image codec, Gemini vision service) are modelled as explicit oracle
arguments, so that a handler's behaviour on every possible collaborator
outcome is a theorem about a total Lean function.
-/

set_option autoImplicit false

namespace PdfOptimizer

/-- Type `CropArea` from `src/types.ts`: a rectangle in percentage units. -/
structure CropArea where
  x : ℚ
  y : ℚ
  width : ℚ
  height : ℚ
deriving DecidableEq, Repr

/-- Type `PixelCrop` from `src/types.ts`: a rectangle in pixel units. -/
structure PixelCrop where
  x : ℚ
  y : ℚ
  width : ℚ
  height : ℚ
deriving DecidableEq, Repr

/-- Type `PageData` from `src/types.ts`.  Optional fields become `Option`;
`undefined` is `none`. -/
structure PageData where
  id : String
  originalUrl : String
  croppedUrl : Option String := none
  thumbnailUrl : Option String := none
  crop : Option CropArea := none
  ocrText : Option String := none
  isProcessing : Option Bool := none
deriving DecidableEq, Repr

instance : Inhabited PageData := ⟨{ id := "", originalUrl := "" }⟩

/-- The history state of `App.tsx`: `history : PageData[][]` together with
`historyIndex`.  (`src/App.tsx` lines 45-46.) -/
structure History where
  snapshots : List (List PageData)
  index : Nat
deriving DecidableEq, Repr

/-- The initial state `useState<PageData[][]>([[]])`, `useState(0)`. -/
def initialHistory : History := ⟨[[]], 0⟩

/-- Selector `pages = history[historyIndex]` (`src/App.tsx` line 48).  Out-of-range
access yields the empty collection, mirroring `undefined` for an absent
element. -/
def currentPages (h : History) : List PageData :=
  h.snapshots.getD h.index []

/-- Function `pushHistory` (`src/App.tsx` lines 116-121):
`history.slice(0, historyIndex + 1)` is `take (index + 1)`, then the new
snapshot is appended and the cursor set to the new last index. -/
def pushHistory (h : History) (newPages : List PageData) : History :=
  let newHistory := h.snapshots.take (h.index + 1) ++ [newPages]
  ⟨newHistory, newHistory.length - 1⟩

/-- Handler `handleUndo` (`src/App.tsx` lines 123-129), restricted to the history
state it updates. -/
def handleUndo (h : History) : History :=
  if 0 < h.index then { h with index := h.index - 1 } else h

/-- Handler `handleRedo` (`src/App.tsx` lines 131-136), restricted to the history
state it updates. -/
def handleRedo (h : History) : History :=
  if h.index < h.snapshots.length - 1 then { h with index := h.index + 1 } else h

/-- Handler `handleResetConfirm` (`src/App.tsx` lines 405-413): `setHistory([[]])`,
`setHistoryIndex(0)`. -/
def handleResetConfirm (_h : History) : History := ⟨[[]], 0⟩

/-- The four history-touching operations reachable from the UI. -/
inductive HistoryOp where
  | push (s : List PageData)
  | undo
  | redo
  | reset
deriving Repr

/-- One UI step acting on the history state. -/
def applyOp (h : History) : HistoryOp → History
  | .push s => pushHistory h s
  | .undo => handleUndo h
  | .redo => handleRedo h
  | .reset => handleResetConfirm h

/-- A whole interaction sequence acting on the history state. -/
def applyOps (h : History) (ops : List HistoryOp) : History :=
  ops.foldl applyOp h

/-- The history invariant of the spec: the cursor is a valid index and the
snapshot at index 0 is the empty collection. -/
def HistoryInv (h : History) : Prop :=
  h.index < h.snapshots.length ∧ h.snapshots.head? = some []

theorem historyInv_initial : HistoryInv initialHistory := by
  constructor <;> simp [initialHistory]

theorem historyInv_applyOp (h : History) (op : HistoryOp)
    (hi : HistoryInv h) : HistoryInv (applyOp h op) := by
  obtain ⟨snaps, idx⟩ := h
  obtain ⟨hlt, hhead⟩ := hi
  simp only at hlt hhead
  obtain ⟨tl, rfl⟩ : ∃ tl, snaps = [] :: tl := by
    cases snaps with
    | nil => simp at hhead
    | cons a tl =>
      simp at hhead
      exact ⟨tl, by rw [hhead]⟩
  cases op with
  | push s =>
    constructor
    · simp [applyOp, pushHistory]
    · simp [applyOp, pushHistory, List.take_succ_cons]
  | undo =>
    constructor
    · simp only [applyOp, handleUndo]
      split <;> simp only [List.length_cons] at hlt ⊢ <;> omega
    · simp only [applyOp, handleUndo]
      split <;> rfl
  | redo =>
    constructor
    · simp only [applyOp, handleRedo]
      split <;> rename_i hc <;>
        simp only [List.length_cons] at hlt hc ⊢ <;> omega
    · simp only [applyOp, handleRedo]
      split <;> rfl
  | reset =>
    constructor <;> simp [applyOp, handleResetConfirm]

theorem historyInv_applyOps (h : History) (ops : List HistoryOp)
    (hi : HistoryInv h) : HistoryInv (applyOps h ops) := by
  induction ops generalizing h with
  | nil => exact hi
  | cons op rest ih => exact ih _ (historyInv_applyOp h op hi)

/- ## Mutation operations on the page collection -/

/-- Handler `handleDeletePage` (`src/App.tsx` lines 205-209), the collection part:
`pages.filter(p => p.id !== id)`. -/
def handleDeletePage (pages : List PageData) (id : String) : List PageData :=
  pages.filter (fun p => p.id != id)

/-- The per-page staging step of `handleAutoCropAll` (`src/App.tsx` line
246): `{ ...page, crop: suggestion, croppedUrl: undefined }`.  The spec
calls this operation `stageAutoCropSuggestion`. -/
def stageAutoCropSuggestion (page : PageData) (suggestion : CropArea) : PageData :=
  { page with crop := some suggestion, croppedUrl := none }

/-- The per-page function of `handleAutoCropAll` (`src/App.tsx` lines
240-249): ask the vision service for a suggestion; on `null` (or a thrown
error, which `getAutoCropSuggestion` never lets escape) keep the page,
otherwise stage the suggestion. -/
def autoCropPage (svc : String → Option CropArea) (page : PageData) : PageData :=
  match svc page.originalUrl with
  | none => page
  | some suggestion => stageAutoCropSuggestion page suggestion

/-- The per-page branch of `handleDiscardCrops` (`src/App.tsx` lines
291-296): pending-review pages (`crop` set, no `croppedUrl`) lose their
`crop`; every other page is untouched. -/
def discardStagedCrop (page : PageData) : PageData :=
  if page.crop.isSome ∧ page.croppedUrl = none then
    { page with crop := none }
  else
    page

/-- Handler `handleDiscardCrops` (`src/App.tsx` lines 290-298), the collection
part: the map over all pages. -/
def handleDiscardCrops (pages : List PageData) : List PageData :=
  pages.map discardStagedCrop

/-- Natural dimensions of a source image, as returned by
`getImageDimensions` in the pdf service. -/
structure Dims where
  width : ℚ
  height : ℚ
deriving DecidableEq, Repr

/-- The image-codec collaborators used by `handleApplyCrops`:
`getImageDimensions` and `cropImage` from `src/services/pdfService.ts`.
`none` models a rejected promise (a thrown error). -/
structure CodecEnv where
  getImageDimensions : String → Option Dims
  cropImage : String → PixelCrop → ℚ → Option String

/-- The pixel crop computed by `handleApplyCrops` (`src/App.tsx` lines
266-271) from a percentage `crop` and the image's natural dimensions. -/
def pixelCropOf (c : CropArea) (dims : Dims) : PixelCrop :=
  { x := c.x / 100 * dims.width
    y := c.y / 100 * dims.height
    width := c.width / 100 * dims.width
    height := c.height / 100 * dims.height }

/-- The per-page function of `handleApplyCrops` (`src/App.tsx` lines
262-280): only pages with `crop` set and no `croppedUrl` are processed;
a failure of either codec call leaves the page unchanged; on success only
`croppedUrl` is set.  The spec calls the whole map `commitStagedCrops`. -/
def applyCropPage (env : CodecEnv) (page : PageData) : PageData :=
  match page.crop, page.croppedUrl with
  | some c, none =>
    match env.getImageDimensions page.originalUrl with
    | none => page
    | some dims =>
      match env.cropImage page.originalUrl (pixelCropOf c dims) (9 / 10 : ℚ) with
      | none => page
      | some url => { page with croppedUrl := some url }
  | _, _ => page

/-- Handler `handleApplyCrops` (`src/App.tsx` lines 259-288), the collection part:
the `Promise.all(pages.map(...))` over all pages. -/
def handleApplyCrops (env : CodecEnv) (pages : List PageData) : List PageData :=
  pages.map (applyCropPage env)

/- ## Claim theorems: history -/

/-- C1: `push` discards any snapshots after the current cursor, appends
the new snapshot and moves the cursor to the new last index; hence after a
`push` following an undo of a previous push, `redo` is a no-op (the
discarded branch cannot be re-entered and the current snapshot is
unchanged). -/
theorem push_truncates_and_redo_is_noop :
    ∀ (h : History) (s : List PageData),
      (pushHistory h s).snapshots = h.snapshots.take (h.index + 1) ++ [s] ∧
      (pushHistory h s).index = (pushHistory h s).snapshots.length - 1 ∧
      ∀ (h₀ : History) (s₀ s₁ : List PageData),
        handleRedo (pushHistory (handleUndo (pushHistory h₀ s₀)) s₁) =
          pushHistory (handleUndo (pushHistory h₀ s₀)) s₁ ∧
        currentPages (handleRedo (pushHistory (handleUndo (pushHistory h₀ s₀)) s₁)) =
          currentPages (pushHistory (handleUndo (pushHistory h₀ s₀)) s₁) := by
  intro h s
  have hredo : ∀ (h' : History) (s' : List PageData),
      handleRedo (pushHistory h' s') = pushHistory h' s' := by
    intro h' s'
    simp [handleRedo, pushHistory]
  exact ⟨rfl, rfl, fun h₀ s₀ s₁ => ⟨hredo _ _, by rw [hredo]⟩⟩

/-- C2: in every history state reachable from the initial state by any
sequence of push, undo, redo and reset operations, the cursor is a valid
index into the snapshot sequence and the snapshot at index 0 is the empty
page collection. -/
theorem reachable_history_invariant :
    ∀ ops : List HistoryOp,
      (applyOps initialHistory ops).index <
        (applyOps initialHistory ops).snapshots.length ∧
      (applyOps initialHistory ops).snapshots.head? = some [] :=
  fun ops => historyInv_applyOps initialHistory ops historyInv_initial

/- ## Claim theorems: mutation operations -/

/-- C3: `commitStagedCrops` (= `handleApplyCrops`) maps every record
through the per-record step; a record is touched only when it is in
pending-review state (`crop` set, `croppedUrl` absent), in which case the
pixel crop computed from the percentage box and the natural dimensions is
handed to the codec: on success only `croppedUrl` changes, on a codec
failure the record is returned unchanged, and records not in
pending-review state are returned unchanged. -/
theorem commitStagedCrops_spec :
    ∀ (env : CodecEnv) (pages : List PageData),
      (handleApplyCrops env pages).length = pages.length ∧
      (∀ i : Nat,
        (handleApplyCrops env pages)[i]? = (pages[i]?).map (applyCropPage env)) ∧
      ∀ page : PageData,
        (page.crop = none → applyCropPage env page = page) ∧
        (page.croppedUrl ≠ none → applyCropPage env page = page) ∧
        (∀ c : CropArea, page.crop = some c → page.croppedUrl = none →
          (env.getImageDimensions page.originalUrl = none →
            applyCropPage env page = page) ∧
          (∀ dims : Dims, env.getImageDimensions page.originalUrl = some dims →
            (env.cropImage page.originalUrl (pixelCropOf c dims) (9 / 10 : ℚ) = none →
              applyCropPage env page = page) ∧
            (∀ url : String,
              env.cropImage page.originalUrl (pixelCropOf c dims) (9 / 10 : ℚ) =
                some url →
              applyCropPage env page = { page with croppedUrl := some url }))) := by
  intro env pages
  refine ⟨by simp [handleApplyCrops], ?_, ?_⟩
  · intro i
    simp [handleApplyCrops]
  · intro page
    refine ⟨?_, ?_, ?_⟩
    · intro h
      cases hu : page.croppedUrl <;> simp [applyCropPage, h, hu]
    · intro h
      cases hu : page.croppedUrl with
      | none => exact absurd hu h
      | some u => cases hc : page.crop <;> simp [applyCropPage, hc, hu]
    · intro c hc hu
      refine ⟨?_, ?_⟩
      · intro hdims
        simp [applyCropPage, hc, hu, hdims]
      · intro dims hdims
        refine ⟨?_, ?_⟩
        · intro hcrop
          simp [applyCropPage, hc, hu, hdims, hcrop]
        · intro url hcrop
          simp [applyCropPage, hc, hu, hdims, hcrop]

/-- A concrete codec environment for exercising `commitStagedCrops_spec`:
dimensions 200×100, cropping always succeeds with url `"crop-ok"`. -/
def c3Env : CodecEnv :=
  { getImageDimensions := fun _ => some ⟨200, 100⟩
    cropImage := fun _ _ _ => some "crop-ok" }

/-- A concrete page in pending-review state. -/
def c3Page : PageData :=
  { id := "p3", originalUrl := "img3", crop := some ⟨10, 10, 80, 80⟩ }

theorem commitStagedCrops_spec_witness :
    c3Page.crop = some ⟨10, 10, 80, 80⟩ ∧ c3Page.croppedUrl = none ∧
    c3Env.getImageDimensions c3Page.originalUrl = some ⟨200, 100⟩ ∧
    c3Env.cropImage c3Page.originalUrl
      (pixelCropOf ⟨10, 10, 80, 80⟩ ⟨200, 100⟩) (9 / 10 : ℚ) = some "crop-ok" ∧
    applyCropPage c3Env c3Page = { c3Page with croppedUrl := some "crop-ok" } :=
  ⟨rfl, rfl, rfl, rfl,
    ((((commitStagedCrops_spec c3Env []).2.2 c3Page).2.2 ⟨10, 10, 80, 80⟩ rfl
      rfl).2 ⟨200, 100⟩ rfl).2 "crop-ok" rfl⟩

/-- C4 fails on the code as stated: for a record that already has an
applied crop (`crop` and `croppedUrl` both set), staging a suggestion and
then discarding does NOT restore the pre-suggestion state — the applied
crop is lost.  Concretely, the record below ends with `croppedUrl = none`
instead of `some "applied"`. -/
theorem stage_then_discard_counterexample :
    discardStagedCrop
        (stageAutoCropSuggestion
          { id := "p4", originalUrl := "img4", croppedUrl := some "applied"
            crop := some ⟨0, 0, 50, 50⟩ }
          ⟨10, 10, 80, 80⟩) ≠
      { id := "p4", originalUrl := "img4", croppedUrl := some "applied"
        crop := some ⟨0, 0, 50, 50⟩ } := by
  intro hcontra
  have h := congrArg PageData.croppedUrl hcontra
  simp [discardStagedCrop, stageAutoCropSuggestion] at h

/-- C4 (amended): `stageAutoCropSuggestion` followed by
`discardStagedCrops` always yields a record with neither `crop` nor
`croppedUrl` set; this record is identical to the pre-suggestion state
exactly when the record had neither field set before staging — records
with an already-applied crop lose both fields instead. -/
theorem stage_then_discard_clears_crop :
    ∀ (page : PageData) (suggestion : CropArea),
      (discardStagedCrop (stageAutoCropSuggestion page suggestion)).crop = none ∧
      (discardStagedCrop (stageAutoCropSuggestion page suggestion)).croppedUrl = none ∧
      (page.crop = none → page.croppedUrl = none →
        discardStagedCrop (stageAutoCropSuggestion page suggestion) = page) := by
  intro page s
  refine ⟨?_, ?_, ?_⟩
  · simp [discardStagedCrop, stageAutoCropSuggestion]
  · simp [discardStagedCrop, stageAutoCropSuggestion]
  · intro h1 h2
    cases page
    simp_all [discardStagedCrop, stageAutoCropSuggestion]

/-- A crop-free page exercising the restoration case of C4. -/
def c4PlainPage : PageData := { id := "p4b", originalUrl := "img4b" }

theorem stage_then_discard_clears_crop_witness :
    c4PlainPage.crop = none ∧ c4PlainPage.croppedUrl = none ∧
    discardStagedCrop (stageAutoCropSuggestion c4PlainPage ⟨10, 10, 80, 80⟩) =
      c4PlainPage :=
  ⟨rfl, rfl,
    (stage_then_discard_clears_crop c4PlainPage ⟨10, 10, 80, 80⟩).2.2 rfl rfl⟩

/-- C7: `deletePage` returns a sublist of the input (so the relative
order and contents of the surviving records are preserved), keeps exactly
the records whose id differs from the argument, and is the identity when
no record carries the id. -/
theorem deletePage_removes_matching_id :
    ∀ (pages : List PageData) (id : String),
      List.Sublist (handleDeletePage pages id) pages ∧
      (∀ p : PageData, p ∈ handleDeletePage pages id ↔ p ∈ pages ∧ p.id ≠ id) ∧
      ((∀ p ∈ pages, p.id ≠ id) → handleDeletePage pages id = pages) := by
  intro pages id
  refine ⟨List.filter_sublist _, ?_, ?_⟩
  · intro p
    simp [handleDeletePage, List.mem_filter]
  · intro habs
    apply List.filter_eq_self.mpr
    intro p hp
    simpa using habs p hp

/-- A page whose id does not match the deleted one. -/
def c7Page : PageData := { id := "keep", originalUrl := "img7" }

theorem deletePage_removes_matching_id_witness :
    (∀ p ∈ [c7Page], p.id ≠ "gone") ∧
    handleDeletePage [c7Page] "gone" = [c7Page] := by
  have h : ∀ p ∈ [c7Page], p.id ≠ "gone" := by decide
  exact ⟨h, (deletePage_removes_matching_id [c7Page] "gone").2.2 h⟩

/- ## Batch Orchestrator (spec §4.3, realised by `Promise.all(pages.map(...))`
in `handleAutoCropAll` and `handleApplyCrops`) -/

/-- The merged result of a batch: each page is replaced by its per-page
result, with `none` standing for an internally-handled per-page failure
that returns the original record (the `catch { return page }` pattern of
`src/App.tsx` lines 247-249 and 274-277). -/
def batchRun (op : PageData → Option PageData) (pages : List PageData) :
    List PageData :=
  pages.map fun p => (op p).getD p

/-- JS `Promise.all` assembles per-page results positionally as the promises
settle.  `settleAll` models this: `order` is the completion order of the
per-page operations, and each completion writes its result into the slot
of its own page. -/
def settleAll (op : PageData → Option PageData) (pages : List PageData)
    (order : List Nat) : List PageData :=
  order.foldl
    (fun acc i => acc.set i ((op (pages.getD i default)).getD (pages.getD i default)))
    pages

theorem settleAll_getElem? (op : PageData → Option PageData)
    (pages : List PageData) :
    ∀ (order : List Nat) (acc : List PageData), acc.length = pages.length →
      (∀ j ∈ order, j < pages.length) →
      ∀ j : Nat,
        (order.foldl
          (fun acc i =>
            acc.set i ((op (pages.getD i default)).getD (pages.getD i default)))
          acc)[j]? =
          if j ∈ order
          then some ((op (pages.getD j default)).getD (pages.getD j default))
          else acc[j]? := by
  intro order
  induction order with
  | nil =>
    intro acc _ _ j
    simp
  | cons i rest ih =>
    intro acc hlen hbound j
    have hrest : ∀ k ∈ rest, k < pages.length := fun k hk =>
      hbound k (List.mem_cons_of_mem _ hk)
    have hi : i < pages.length := hbound i (List.mem_cons_self _ _)
    simp only [List.foldl_cons]
    rw [ih _ (by simp [hlen]) hrest j]
    by_cases hjr : j ∈ rest
    · simp [hjr, List.mem_cons]
    · by_cases hji : j = i
      · subst hji
        rw [if_neg hjr, if_pos (List.mem_cons_self _ _)]
        exact List.getElem?_set_self (by rw [hlen]; exact hi)
      · rw [if_neg hjr, if_neg (by simp [List.mem_cons, hji, hjr]),
          List.getElem?_set_ne (Ne.symm hji)]

/-- C5: if the per-page operation fails for page `k` (and is caught,
returning the original record), the merged collection still has exactly
`N` pages, page `k` is identical to its pre-batch value, every page
carries its own per-page result in its own position, and the merged
collection is the same for every completion order covering all pages. -/
theorem batch_isolation_and_order :
    ∀ (op : PageData → Option PageData) (pages : List PageData) (k : Nat),
      k < pages.length →
      op (pages.getD k default) = none →
      (batchRun op pages).length = pages.length ∧
      (batchRun op pages)[k]? = pages[k]? ∧
      (∀ j : Nat, (batchRun op pages)[j]? =
        (pages[j]?).map fun p => (op p).getD p) ∧
      (∀ order : List Nat,
        (∀ j, j < pages.length → j ∈ order) →
        (∀ j ∈ order, j < pages.length) →
        settleAll op pages order = batchRun op pages) := by
  intro op pages k hk hfail
  have hgetd : pages.getD k default = pages[k] := by
    rw [List.getD_eq_getElem?_getD, List.getElem?_eq_getElem hk]
    rfl
  refine ⟨by simp [batchRun], ?_, ?_, ?_⟩
  · rw [batchRun, List.getElem?_map, List.getElem?_eq_getElem hk]
    rw [hgetd] at hfail
    simp [hfail]
  · intro j
    simp [batchRun]
  · intro order hcover hbound
    apply List.ext_getElem?
    intro j
    rw [settleAll, settleAll_getElem? op pages order pages rfl hbound j]
    by_cases hjl : j < pages.length
    · rw [if_pos (hcover j hjl), batchRun, List.getElem?_map,
        List.getElem?_eq_getElem hjl]
      rw [List.getD_eq_getElem?_getD, List.getElem?_eq_getElem hjl]
      rfl
    · have hjo : j ∉ order := fun hj => hjl (hbound j hj)
      have hnone : pages[j]? = none := by
        rw [List.getElem?_eq_none_iff]
        omega
      rw [if_neg hjo, batchRun, List.getElem?_map, hnone]
      rfl

/-- Concrete pages for exercising `batch_isolation_and_order`. -/
def c5A : PageData := { id := "a", originalUrl := "ua" }

/-- See `c5A`. -/
def c5B : PageData := { id := "b", originalUrl := "ub" }

/-- A per-page batch operation that fails exactly on page `"b"`. -/
def c5Op : PageData → Option PageData :=
  fun p => if p.id = "b" then none else some { p with ocrText := some "done" }

theorem batch_isolation_and_order_witness :
    1 < ([c5A, c5B] : List PageData).length ∧
    c5Op ([c5A, c5B].getD 1 default) = none ∧
    (batchRun c5Op [c5A, c5B]).length = ([c5A, c5B] : List PageData).length ∧
    (batchRun c5Op [c5A, c5B])[1]? = ([c5A, c5B] : List PageData)[1]? := by
  have hk : 1 < ([c5A, c5B] : List PageData).length := by decide
  have hf : c5Op ([c5A, c5B].getD 1 default) = none := by decide
  exact ⟨hk, hf, (batch_isolation_and_order c5Op [c5A, c5B] 1 hk hf).1,
    (batch_isolation_and_order c5Op [c5A, c5B] 1 hk hf).2.1⟩

/- ## Vision service (`src/services/geminiService.ts`, final revision,
lines 261-452) -/

/-- A JS number as it flows through the crop-box arithmetic: a rational
value or `NaN` (the result of `Math.max`/`Math.min`/`-` as soon as any
operand is `NaN` or `undefined`). -/
inductive JsNum where
  | nan
  | num (q : ℚ)
deriving DecidableEq, Repr

/-- JS `Math.max` on two arguments: `NaN` when either operand is not a
number. -/
def jsMax : JsNum → JsNum → JsNum
  | .num a, .num b => .num (max a b)
  | _, _ => .nan

/-- JS `Math.min` on two arguments: `NaN` when either operand is not a
number. -/
def jsMin : JsNum → JsNum → JsNum
  | .num a, .num b => .num (min a b)
  | _, _ => .nan

/-- JS subtraction: `NaN` when either operand is not a number. -/
def jsSub : JsNum → JsNum → JsNum
  | .num a, .num b => .num (a - b)
  | _, _ => .nan

/-- JS `>=`: every comparison involving `NaN` is false. -/
def jsGe : JsNum → JsNum → Bool
  | .num a, .num b => decide (b ≤ a)
  | _, _ => false

/-- A truthy `parseJSONSafely` result, seen through the four property
accesses `data.ymin`, `data.xmin`, `data.ymax`, `data.xmax` that
`getAutoCropSuggestion` performs.  The final source revision validates
nothing about the parsed value, so each access may yield `undefined`
(`none` here) — for instance all four do when the model's text parses to
`{}` or to a number. -/
structure ParsedJson where
  ymin : Option ℚ
  xmin : Option ℚ
  ymax : Option ℚ
  xmax : Option ℚ
deriving DecidableEq, Repr

/-- Numeric coercion of a property access when used as an arithmetic
operand: `undefined` becomes `NaN`. -/
def jsOfProp : Option ℚ → JsNum
  | none => .nan
  | some q => .num q

/-- The box built by `getAutoCropSuggestion`; its coordinates are JS
numbers and may be `NaN` when the parsed JSON lacked numeric keys. -/
structure JsBox where
  x : JsNum
  y : JsNum
  width : JsNum
  height : JsNum
deriving DecidableEq, Repr

/-- Outcome of one `generateContent` call as seen by the wrapper:
`threw` models a rejected promise anywhere inside the `try` block;
`returned a` models a response whose text was read and parsed to `a`
(`returned none` covers an absent/empty `response.text` and a
`parseJSONSafely` result of `null`). -/
inductive VisionCall (α : Type) where
  | threw
  | returned (a : α)
deriving DecidableEq, Repr

/-- Wrapper `getAutoCropSuggestion` (`src/services/geminiService.ts` lines
355-406): on a thrown error or a falsy parse result return `null`;
otherwise clamp `xmin`/`ymin` up to 0, `xmax`/`ymax` down to 100, and
floor width/height at 1 — with no validation of the parsed value, so the
arithmetic silently produces `NaN` coordinates for a truthy non-box
parse. -/
def getAutoCropSuggestion (call : VisionCall (Option ParsedJson)) : Option JsBox :=
  match call with
  | .threw => none
  | .returned none => none
  | .returned (some data) =>
    let xmin := jsMax (.num 0) (jsOfProp data.xmin)
    let ymin := jsMax (.num 0) (jsOfProp data.ymin)
    let xmax := jsMin (.num 100) (jsOfProp data.xmax)
    let ymax := jsMin (.num 100) (jsOfProp data.ymax)
    let width := jsMax (.num 1) (jsSub xmax xmin)
    let height := jsMax (.num 1) (jsSub ymax ymin)
    some { x := xmin, y := ymin, width := width, height := height }

/-- Wrapper `extractTextWithOCR` (`src/services/geminiService.ts` lines 408-428):
`response.text || "No text detected."` on success (an absent or empty
text is falsy), `"Failed to extract text."` on a thrown error. -/
def extractTextWithOCR (call : VisionCall (Option String)) : String :=
  match call with
  | .threw => "Failed to extract text."
  | .returned none => "No text detected."
  | .returned (some t) => if t = "" then "No text detected." else t

/-- Case-insensitive match of `pat` against the front of `s`, as the `i`
flag of the `/```csv/gi` regex does (false when `s` is shorter). -/
def matchesCaseless (pat s : List Char) : Bool :=
  (s.take pat.length).map Char.toLower == pat.map Char.toLower

set_option linter.unusedVariables false in
/-- Left-to-right removal of every non-overlapping occurrence of `pat`,
the behaviour of `String.replace(/pat/g, '')`; matching is
case-insensitive, which coincides with case-sensitive matching for the
all-symbol pattern `"```"`. -/
def stripOccurrences (pat : List Char) (s : List Char) : List Char :=
  match s with
  | [] => []
  | c :: rest =>
    if hcond : pat ≠ [] ∧ matchesCaseless pat (c :: rest) = true then
      stripOccurrences pat ((c :: rest).drop pat.length)
    else
      c :: stripOccurrences pat rest
termination_by s.length
decreasing_by
  · simp only [List.length_drop, List.length_cons]
    have hp : pat.length ≠ 0 := fun h0 => hcond.1 (List.length_eq_zero.mp h0)
    omega
  · simp

/-- The cleaning applied by `extractTableData` to the model's text:
`replace(/```csv/gi, '')`, then `replace(/```/g, '')`, then `trim()`. -/
def cleanTableText (t : String) : String :=
  (String.mk (stripOccurrences "```".toList
    (stripOccurrences "```csv".toList t.toList))).trim

/-- Wrapper `extractTableData` (`src/services/geminiService.ts` lines 430-452):
`"ERROR"` on a thrown error, otherwise `response.text || "NO_TABLES"`
followed by markdown cleaning. -/
def extractTableData (call : VisionCall (Option String)) : String :=
  match call with
  | .threw => "ERROR"
  | .returned t =>
    cleanTableText (match t with
      | none => "NO_TABLES"
      | some s => if s = "" then "NO_TABLES" else s)

/-- JS `String.prototype.includes` on the underlying character lists. -/
def hasSubSeq (pat : List Char) : List Char → Bool
  | [] => pat.isEmpty
  | c :: rest => (pat == (c :: rest).take pat.length) || hasSubSeq pat rest

/-- The per-page status of the multi-table report
(`src/components/MultiTableModal.tsx` / `handleExtractAllTables`). -/
inductive TableStatus where
  | success
  | no_table
  | error
deriving DecidableEq, Repr

/-- Record `TableExtractionResult` as produced by `handleExtractAllTables`. -/
structure TableExtractionResult where
  pageId : String
  pageNumber : Nat
  status : TableStatus
  csvData : Option String
deriving DecidableEq, Repr

/-- The per-page body of `handleExtractAllTables` (`src/App.tsx` lines
351-368): `svc` is the awaited `extractTableData` call, `Except.error`
a rejected promise caught by the inner `catch`. -/
def extractPageTable (svc : String → Except Unit String) (index : Nat)
    (page : PageData) : TableExtractionResult :=
  let imageToUse := page.croppedUrl.getD page.originalUrl
  match svc imageToUse with
  | .error _ =>
    { pageId := page.id, pageNumber := index + 1, status := .error, csvData := none }
  | .ok csv =>
    if csv = "ERROR" then
      { pageId := page.id, pageNumber := index + 1, status := .error, csvData := none }
    else if csv = "" ∨ hasSubSeq "NO_TABLES".toList csv.toList = true then
      { pageId := page.id, pageNumber := index + 1, status := .no_table, csvData := none }
    else
      { pageId := page.id, pageNumber := index + 1, status := .success, csvData := some csv }

/-- Handler `handleExtractAllTables` (`src/App.tsx` lines 346-378): it maps the
current pages to a report and touches neither the history nor any page
(the results only go to `setMultiTableResults`). -/
def handleExtractAllTables (svc : String → Except Unit String) (h : History) :
    History × List TableExtractionResult :=
  (h, (currentPages h).enum.map fun ip => extractPageTable svc ip.1 ip.2)

/-- The uncached path of `handleOpenOCR` (`src/App.tsx` lines 308-321):
call the service, show the resulting string and store it as the page's
`ocrText` in a newly pushed snapshot. -/
def uncachedOcr (call : VisionCall (Option String)) (h : History)
    (id : String) : History × Option String :=
  let text := extractTextWithOCR call
  (pushHistory h ((currentPages h).map fun p =>
    if p.id == id then { p with ocrText := some text } else p),
   some text)

/-- Handler `handleOpenOCR` (`src/App.tsx` lines 300-322): a truthy cached
`ocrText` (present and non-empty, per JS truthiness of
`if (page.ocrText)`) is returned without contacting the service;
otherwise the service is called via `uncachedOcr`. -/
def handleOpenOCR (call : VisionCall (Option String)) (h : History)
    (id : String) : History × Option String :=
  match (currentPages h).find? (fun p => p.id == id) with
  | none => (h, none)
  | some page =>
    match page.ocrText with
    | some cached =>
      if cached = "" then uncachedOcr call h id else (h, some cached)
    | none => uncachedOcr call h id

theorem extractPageTable_shape (svc : String → Except Unit String) (i : Nat)
    (p : PageData) :
    (extractPageTable svc i p).pageId = p.id ∧
    (extractPageTable svc i p).pageNumber = i + 1 ∧
    ((∃ csv, svc (p.croppedUrl.getD p.originalUrl) = .ok csv ∧
       (extractPageTable svc i p).status = .success ∧
       (extractPageTable svc i p).csvData = some csv) ∨
     ((extractPageTable svc i p).status = .no_table ∧
       (extractPageTable svc i p).csvData = none) ∨
     ((extractPageTable svc i p).status = .error ∧
       (extractPageTable svc i p).csvData = none)) := by
  cases hsvc : svc (p.croppedUrl.getD p.originalUrl) with
  | error e => simp [extractPageTable, hsvc]
  | ok csv =>
    by_cases h1 : csv = "ERROR"
    · simp [extractPageTable, hsvc, h1]
    · by_cases h2 : csv = "" ∨ hasSubSeq "NO_TABLES".toList csv.toList = true
      · simp only [extractPageTable, hsvc]
        rw [if_neg h1, if_pos h2]
        simp
      · simp only [extractPageTable, hsvc]
        rw [if_neg h1, if_neg h2]
        exact ⟨rfl, rfl, Or.inl ⟨csv, rfl, rfl, rfl⟩⟩

/-- C6: the batch table extraction leaves the history (hence the page
collection) untouched, and produces one report entry per page, in page
order, each carrying the page's id, the 1-based page number, and one of
the three statuses — `success` with CSV data, `no_table`, or `error`
(both of the latter with no data). -/
theorem extractAllTables_report :
    ∀ (svc : String → Except Unit String) (h : History),
      (handleExtractAllTables svc h).1 = h ∧
      (handleExtractAllTables svc h).2.length = (currentPages h).length ∧
      (∀ i : Nat, ((handleExtractAllTables svc h).2)[i]? =
        ((currentPages h)[i]?).map (extractPageTable svc i)) ∧
      (∀ (i : Nat) (p : PageData), (currentPages h)[i]? = some p →
        ∃ r, ((handleExtractAllTables svc h).2)[i]? = some r ∧
          r.pageId = p.id ∧ r.pageNumber = i + 1 ∧
          ((∃ csv, svc (p.croppedUrl.getD p.originalUrl) = .ok csv ∧
             r.status = .success ∧ r.csvData = some csv) ∨
           (r.status = .no_table ∧ r.csvData = none) ∨
           (r.status = .error ∧ r.csvData = none))) := by
  intro svc h
  have hidx : ∀ i : Nat, ((handleExtractAllTables svc h).2)[i]? =
      ((currentPages h)[i]?).map (extractPageTable svc i) := by
    intro i
    cases hx : (currentPages h)[i]? with
    | none =>
      simp [handleExtractAllTables, List.enum_eq_enumFrom, List.getElem?_enumFrom, hx]
    | some p =>
      simp [handleExtractAllTables, List.enum_eq_enumFrom, List.getElem?_enumFrom, hx]
  refine ⟨rfl, ?_, hidx, ?_⟩
  · simp [handleExtractAllTables]
  · intro i p hp
    refine ⟨extractPageTable svc i p, ?_, extractPageTable_shape svc i p⟩
    rw [hidx i, hp]
    rfl

/-- A service for exercising `extractAllTables_report`: every page yields
a one-cell CSV table. -/
def c6Svc : String → Except Unit String := fun _ => .ok "cell"

/-- A two-snapshot history whose current collection has one page. -/
def c6History : History := ⟨[[], [{ id := "p6", originalUrl := "img6" }]], 1⟩

theorem extractAllTables_report_witness :
    (currentPages c6History)[0]? = some { id := "p6", originalUrl := "img6" } ∧
    (handleExtractAllTables c6Svc c6History).1 = c6History ∧
    ∃ r, ((handleExtractAllTables c6Svc c6History).2)[0]? = some r ∧
      r.pageId = "p6" ∧ r.pageNumber = 1 ∧
      ((∃ csv, c6Svc "img6" = .ok csv ∧ r.status = .success ∧ r.csvData = some csv) ∨
       (r.status = .no_table ∧ r.csvData = none) ∨
       (r.status = .error ∧ r.csvData = none)) := by
  have hp : (currentPages c6History)[0]? =
      some { id := "p6", originalUrl := "img6" } := rfl
  have hmain := extractAllTables_report c6Svc c6History
  obtain ⟨r, hr, hid, hnum, hstat⟩ := hmain.2.2.2 0 _ hp
  exact ⟨hp, hmain.1, r, hr, hid, hnum, hstat⟩

/-- The environment with which C8 is exercised: every vision call throws. -/
def c8Env : String → VisionCall (Option ParsedJson) := fun _ => .threw

/-- C8: each vision wrapper converts any thrown or unparseable service
outcome into a plain "no result" value (`none`, a fallback string) rather
than an exception, and the core consumes these as ordinary outcomes: a
`null` suggestion leaves the page unchanged — for every coercion `toCrop`
of the wrapper's raw box into the stored crop value, since no box is
produced at all — and an `"ERROR"` table result becomes a normal `error`
report entry. -/
theorem vision_failures_are_soft :
    ∀ (cropEnv : String → VisionCall (Option ParsedJson)) (page : PageData) (i : Nat),
      getAutoCropSuggestion .threw = none ∧
      getAutoCropSuggestion (.returned none) = none ∧
      extractTextWithOCR .threw = "Failed to extract text." ∧
      extractTableData .threw = "ERROR" ∧
      (cropEnv page.originalUrl = .threw →
        ∀ toCrop : JsBox → CropArea,
          autoCropPage (fun url => (getAutoCropSuggestion (cropEnv url)).map toCrop)
            page = page) ∧
      extractPageTable (fun _ => .ok (extractTableData .threw)) i page =
        { pageId := page.id, pageNumber := i + 1, status := .error, csvData := none } := by
  intro cropEnv page i
  refine ⟨rfl, rfl, rfl, rfl, ?_, ?_⟩
  · intro hthrew toCrop
    simp [autoCropPage, hthrew, getAutoCropSuggestion]
  · simp [extractPageTable, extractTableData]

/-- A page for exercising `vision_failures_are_soft`. -/
def c8Page : PageData := { id := "p8", originalUrl := "img8" }

/-- A concrete coercion of a raw box into a stored crop value. -/
def c8ToCrop : JsBox → CropArea := fun _ => ⟨0, 0, 100, 100⟩

theorem vision_failures_are_soft_witness :
    c8Env c8Page.originalUrl = .threw ∧
    autoCropPage (fun url => (getAutoCropSuggestion (c8Env url)).map c8ToCrop)
      c8Page = c8Page :=
  ⟨rfl, (vision_failures_are_soft c8Env c8Page 0).2.2.2.2.1 rfl c8ToCrop⟩

/-- The parse result of truthy non-box JSON such as `{}`: all four
property accesses yield `undefined`. -/
def c9Malformed : ParsedJson := ⟨none, none, none, none⟩

/-- C9 fails on the code as stated: the final source revision dropped the
key validation, so a truthy parse result without numeric keys (such as
`{}`) produces a NON-null box whose coordinates are all `NaN` — and
`NaN ≥ 0` / `NaN ≥ 1` are false in JS. -/
theorem autoCrop_box_clamped_counterexample :
    getAutoCropSuggestion (.returned (some c9Malformed)) =
      some { x := .nan, y := .nan, width := .nan, height := .nan } ∧
    jsGe JsNum.nan (.num 0) = false ∧ jsGe JsNum.nan (.num 1) = false :=
  ⟨rfl, rfl, rfl⟩

/-- C9 (amended): whenever the parsed JSON supplies numeric values for
all four keys, the returned box is the clamped version of the raw
coordinates and satisfies `x ≥ 0`, `y ≥ 0`, `width ≥ 1`, `height ≥ 1` —
also for out-of-range or inverted coordinates.  When a key is missing or
non-numeric, a non-null box is still returned but the affected
coordinates are `NaN` and the bounds fail (no exception either way). -/
theorem autoCrop_box_clamped :
    ∀ (data : ParsedJson) (xmin ymin xmax ymax : ℚ),
      data.ymin = some ymin → data.xmin = some xmin →
      data.ymax = some ymax → data.xmax = some xmax →
      ∃ b : JsBox,
        getAutoCropSuggestion (.returned (some data)) = some b ∧
        b.x = .num (max 0 xmin) ∧ b.y = .num (max 0 ymin) ∧
        b.width = .num (max 1 (min 100 xmax - max 0 xmin)) ∧
        b.height = .num (max 1 (min 100 ymax - max 0 ymin)) ∧
        jsGe b.x (.num 0) = true ∧ jsGe b.y (.num 0) = true ∧
        jsGe b.width (.num 1) = true ∧ jsGe b.height (.num 1) = true := by
  intro data xmin ymin xmax ymax h1 h2 h3 h4
  obtain ⟨dymin, dxmin, dymax, dxmax⟩ := data
  simp only at h1 h2 h3 h4
  subst h1; subst h2; subst h3; subst h4
  refine ⟨_, rfl, rfl, rfl, rfl, rfl, ?_, ?_, ?_, ?_⟩ <;>
    exact decide_eq_true (le_max_left _ _)

/-- Out-of-range (`xmin = -5`, `xmax = 120`) and inverted
(`ymax < ymin`) raw coordinates for exercising the amended C9. -/
def c9Data : ParsedJson := ⟨some 2, some (-5), some 1, some 120⟩

theorem autoCrop_box_clamped_witness :
    c9Data.ymin = some 2 ∧ c9Data.xmin = some (-5) ∧
    c9Data.ymax = some 1 ∧ c9Data.xmax = some 120 ∧
    ∃ b : JsBox,
      getAutoCropSuggestion (.returned (some c9Data)) = some b ∧
      b.x = .num (max 0 (-5)) ∧ b.y = .num (max 0 2) ∧
      b.width = .num (max 1 (min 100 120 - max 0 (-5))) ∧
      b.height = .num (max 1 (min 100 1 - max 0 2)) ∧
      jsGe b.x (.num 0) = true ∧ jsGe b.y (.num 0) = true ∧
      jsGe b.width (.num 1) = true ∧ jsGe b.height (.num 1) = true :=
  ⟨rfl, rfl, rfl, rfl,
    autoCrop_box_clamped c9Data (-5) 2 120 1 rfl rfl rfl rfl⟩

theorem currentPages_pushHistory (h : History) (s : List PageData) :
    currentPages (pushHistory h s) = s := by
  rw [currentPages, pushHistory]
  simp only
  rw [List.getD_eq_getElem?_getD]
  have hlen : (h.snapshots.take (h.index + 1) ++ [s]).length - 1 =
      (h.snapshots.take (h.index + 1)).length := by simp
  rw [hlen, List.getElem?_concat_length]
  rfl

theorem extractTextWithOCR_ne_empty (call : VisionCall (Option String)) :
    extractTextWithOCR call ≠ "" := by
  cases call with
  | threw => simp [extractTextWithOCR]
  | returned t =>
    cases t with
    | none => simp [extractTextWithOCR]
    | some s =>
      simp only [extractTextWithOCR]
      split
      · simp
      · assumption

theorem find?_map_of_pred (g : PageData → PageData) (q : PageData → Bool)
    (hq : ∀ p, q (g p) = q p) :
    ∀ l : List PageData, (l.map g).find? q = (l.find? q).map g := by
  intro l
  induction l with
  | nil => rfl
  | cons a t ih =>
    cases hqa : q a
    · simp [List.find?_cons, hq a, hqa, ih]
    · simp [List.find?_cons, hq a, hqa]

/-- C10: on a failed or empty text extraction the service returns the
literal strings `"Failed to extract text."` / `"No text detected."` as an
ordinary `String`; the OCR handler stores the returned string as the
page's `ocrText` in a newly pushed snapshot, and every later OCR request
for that page answers from the cache — the result no longer depends on
the vision call at all. -/
theorem ocr_failure_is_cached :
    ∀ (call₁ : VisionCall (Option String)) (h : History) (id : String)
      (page : PageData),
      (currentPages h).find? (fun p => p.id == id) = some page →
      page.ocrText = none →
      extractTextWithOCR .threw = "Failed to extract text." ∧
      extractTextWithOCR (.returned none) = "No text detected." ∧
      (handleOpenOCR call₁ h id).2 = some (extractTextWithOCR call₁) ∧
      (handleOpenOCR call₁ h id).1 =
        pushHistory h ((currentPages h).map fun p =>
          if p.id == id then { p with ocrText := some (extractTextWithOCR call₁) }
          else p) ∧
      (∀ call₂ : VisionCall (Option String),
        handleOpenOCR call₂ (handleOpenOCR call₁ h id).1 id =
          ((handleOpenOCR call₁ h id).1, some (extractTextWithOCR call₁))) := by
  intro call₁ h id page hfind hocr
  have hpq : (page.id == id) = true := by
    have hs := List.find?_some hfind
    simpa using hs
  have hstep1 : (handleOpenOCR call₁ h id).1 =
      pushHistory h ((currentPages h).map fun p =>
        if p.id == id then { p with ocrText := some (extractTextWithOCR call₁) }
        else p) := by
    simp [handleOpenOCR, uncachedOcr, hfind, hocr]
  have hstep2 : (handleOpenOCR call₁ h id).2 = some (extractTextWithOCR call₁) := by
    simp [handleOpenOCR, uncachedOcr, hfind, hocr]
  refine ⟨rfl, rfl, hstep2, hstep1, ?_⟩
  intro call₂
  have heq : page.id = id := by simpa using hpq
  have hcur : currentPages (handleOpenOCR call₁ h id).1 =
      (currentPages h).map fun p =>
        if p.id == id then { p with ocrText := some (extractTextWithOCR call₁) }
        else p := by
    rw [hstep1, currentPages_pushHistory]
  set st := (handleOpenOCR call₁ h id).1 with hst
  have hfind2 : (currentPages st).find? (fun p => p.id == id) =
      some { page with ocrText := some (extractTextWithOCR call₁) } := by
    rw [hcur, find?_map_of_pred _ _ ?hq _, hfind]
    · simp [heq]
    case hq =>
      intro p
      by_cases hp : p.id = id <;> simp [hp]
  simp [handleOpenOCR, hfind2, extractTextWithOCR_ne_empty call₁]

/-- A one-page history with no cached OCR text, for exercising
`ocr_failure_is_cached`. -/
def c10History : History := ⟨[[], [{ id := "p10", originalUrl := "img10" }]], 1⟩

theorem ocr_failure_is_cached_witness :
    (currentPages c10History).find? (fun p => p.id == "p10") =
      some { id := "p10", originalUrl := "img10" } ∧
    ({ id := "p10", originalUrl := "img10" } : PageData).ocrText = none ∧
    (handleOpenOCR .threw c10History "p10").2 = some "Failed to extract text." ∧
    handleOpenOCR (.returned (some "late text"))
        (handleOpenOCR .threw c10History "p10").1 "p10" =
      ((handleOpenOCR .threw c10History "p10").1,
        some "Failed to extract text.") := by
  have hmain := ocr_failure_is_cached .threw c10History "p10"
    { id := "p10", originalUrl := "img10" } rfl rfl
  exact ⟨rfl, rfl, hmain.2.2.1, hmain.2.2.2.2 (.returned (some "late text"))⟩

end PdfOptimizer
